import Mathlib

/-!
Shallow embedding of the crawl_info crawler scripts and verification of the
frozen specification claims.  Each site-specific source file is embedded in
its own namespace; network and HTML-library effects (the out-of-scope
external collaborators of the spec) appear as explicit function parameters
or as abstract input data, while every piece of logic written in the
repository itself is translated faithfully.

The file is organised as definitions first (string primitives, the embedded
crawler functions, concrete fixtures) followed by the helper lemmas and the
claim theorems.
-/

namespace CrawlSpec

open scoped List

/-! ## Definitions -/

/-! ### Generic string helpers mirroring the Python primitives used -/

/-- Substring test on character lists: Python `needle in hay`. -/
def containsSub (needle : List Char) : List Char → Bool
  | [] => needle.isEmpty
  | c :: t => needle.isPrefixOf (c :: t) || containsSub needle t

/-- Python `needle in hay` on strings. -/
def strContains (hay needle : String) : Bool :=
  containsSub needle.toList hay.toList

/-- Python `s.lower()` (ASCII model, per-character lowering). -/
def strLower (s : String) : String :=
  ⟨s.toList.map Char.toLower⟩

/-- Python `s.strip()`: drop leading and trailing whitespace. -/
def strTrim (s : String) : String :=
  ⟨((s.toList.dropWhile Char.isWhitespace).reverse.dropWhile
      Char.isWhitespace).reverse⟩

/-- Python `s.startswith(pre)`. -/
def strStarts (s pre : String) : Bool :=
  pre.toList.isPrefixOf s.toList

/-- Python `s.endswith(suf)`. -/
def strEnds (s suf : String) : Bool :=
  suf.toList.isSuffixOf s.toList

/-- Python `s.split(sep, 1)[0]` for a single-character separator:
the prefix of `s` before the first occurrence of `c`. -/
def takeBefore (c : Char) (s : String) : String :=
  ⟨s.toList.takeWhile (fun d => d ≠ c)⟩

/-- Python `s.rstrip("/")`: remove all trailing slash characters. -/
def rstripSlash (s : String) : String :=
  ⟨(s.toList.reverse.dropWhile (fun d => d = '/')).reverse⟩

/-- Python `s.lstrip("/")`: remove all leading slash characters. -/
def lstripSlash (s : String) : String :=
  ⟨s.toList.dropWhile (fun d => d = '/')⟩

/-- Python `s[:n]` on strings (by characters). -/
def strTake (s : String) (n : Nat) : String :=
  ⟨s.toList.take n⟩

/-- Concatenation of the images of `f`, in order (Python nested loops). -/
def joinMap (f : α → List β) : List α → List β
  | [] => []
  | a :: t => f a ++ joinMap f t

/-- First-occurrence deduplication keyed by `key`, threading the `seen` set
exactly like the Python scripts do. -/
def dedupByKey (key : String → String) (seen : List String) :
    List String → List String
  | [] => []
  | h :: t =>
    if key h ∈ seen then dedupByKey key seen t
    else h :: dedupByKey key (key h :: seen) t

/-! ### HTML node trees (the parser's external node interface) -/

mutual
/-- A parsed HTML node: a text leaf or an element with a tag name, an
attribute list and children in document order. -/
inductive Node where
  | text (s : String)
  | elem (tag : String) (attrs : List (String × String)) (children : NodeList)
/-- Children of an element, in document order. -/
inductive NodeList where
  | nil
  | cons (head : Node) (tail : NodeList)
end

mutual
/-- Preorder (document-order) listing of a node and everything below it. -/
def preorderN : Node → List Node
  | .text s => [.text s]
  | .elem t a cs => .elem t a cs :: preorderL cs
/-- Preorder listing of a forest. -/
def preorderL : NodeList → List Node
  | .nil => []
  | .cons h t => preorderN h ++ preorderL t
end

/-- BeautifulSoup `node.descendants`: every node strictly below `n`,
in document order. -/
def descendants : Node → List Node
  | .text _ => []
  | .elem _ _ cs => preorderL cs

mutual
/-- The text leaves below (and including) a node, in document order. -/
def textsN : Node → List String
  | .text s => [s]
  | .elem _ _ cs => textsL cs
/-- The text leaves of a forest. -/
def textsL : NodeList → List String
  | .nil => []
  | .cons h t => textsN h ++ textsL t
end

/-- BeautifulSoup `node.get_text(sep, strip=True)`: each text leaf stripped,
empties dropped, the rest joined with `sep`. -/
def getTextSep (sep : String) (n : Node) : String :=
  String.intercalate sep (((textsN n).map strTrim).filter (fun s => s ≠ ""))

/-- BeautifulSoup `tag.name` (`None` for text nodes). -/
def nodeName : Node → Option String
  | .text _ => none
  | .elem t _ _ => some t

/-- The attribute list of an element (empty for text nodes). -/
def nodeAttrs : Node → List (String × String)
  | .text _ => []
  | .elem _ a _ => a

/-- BeautifulSoup `tag.get(name)`: the first attribute with that name. -/
def getAttr (attrs : List (String × String)) (key : String) : Option String :=
  (attrs.find? (fun p => p.1 == key)).map Prod.snd

/-- One body segment: paragraph text or an (absolutized) image URL. -/
inductive Seg where
  | txt (s : String)
  | img (u : String)
deriving DecidableEq

/-- The string carried by a segment (the scripts keep untagged strings). -/
def segVal : Seg → String
  | .txt s => s
  | .img u => u

/-- The image URL of a segment, if it is an image segment. -/
def imgVal : Seg → Option String
  | .txt _ => none
  | .img u => some u

/-- First-occurrence dedup of the image segments of a stream (text segments
pass through untouched), threading the `seen_imgs` set. -/
def dedupSegs (seen : List String) : List Seg → List Seg
  | [] => []
  | .txt t :: rest => .txt t :: dedupSegs seen rest
  | .img u :: rest =>
    if u ∈ seen then dedupSegs seen rest
    else .img u :: dedupSegs (u :: seen) rest

namespace AIWeekly

/-! ### `src/AI_Weekly/crawl_aiweekly_api.py` -/

/-- The bot-challenge marker checked by `fetch_html` and `extract_article`. -/
def marker : String := "verify you are human"

/-- Outcome of one HTTP request attempt: either an exception was raised or a
response with a status code and body text came back. -/
inductive Attempt where
  | exn
  | resp (status : Nat) (body : String)
deriving DecidableEq

/-- Strategy 1 of `fetch_html` (lines 54-60): plain `requests.get`; the body
is returned when the status is 200 and the lowercased body does not contain
the challenge marker, otherwise the attempt fails (warning logged). -/
def req1Success : Attempt → Option String
  | .exn => none
  | .resp status body =>
    if status = 200 && !strContains (strLower body) marker then some body
    else none

/-- Strategy 2 of `fetch_html` (lines 63-73): `cloudscraper`; the body is
returned exactly when the status is 200. -/
def cloudSuccess : Attempt → Option String
  | .exn => none
  | .resp status body => if status = 200 then some body else none

/-- Strategy 3 of `fetch_html` (lines 76-95): Playwright.  `none` means the
library is not installed (`RuntimeError` raised at line 77); `some none`
means navigation was attempted and failed (line 95); `some (some html)` is a
successful page snapshot. -/
def playwrightStage : Option (Option String) → Except String String
  | none => .error "All fetch methods failed and Playwright not installed"
  | some none => .error "Playwright failed to fetch"
  | some (some html) => .ok html

/-- Stage reached after strategy 1 has failed: try cloudscraper when the
library is available, then Playwright. -/
def cloudStage (cloud : Option Attempt) (pw : Option (Option String)) :
    Except String String :=
  match cloud with
  | some att =>
    match cloudSuccess att with
    | some body => .ok body
    | none => playwrightStage pw
  | none => playwrightStage pw

/-- `fetch_html` (lines 45-95), with the three network effects abstracted as
inputs: the direct-GET outcome, the cloudscraper outcome (`none` when the
library is absent) and the Playwright outcome (`none` when absent). -/
def fetch_html (a1 : Attempt) (cloud : Option Attempt)
    (pw : Option (Option String)) : Except String String :=
  match req1Success a1 with
  | some body => .ok body
  | none => cloudStage cloud pw

/-- Whether a fetch result is the error case (a raised `RuntimeError`). -/
def fetchFailed : Except String String → Bool
  | .error _ => true
  | .ok _ => false

/-- `resolve_redirect` (lines 98-109).  `head url` is the final URL of the
redirect-following HEAD request (`none` when it raises), `get url` that of
the streamed redirect-following GET. -/
def resolve_redirect (head get : String → Option String) (url : String) :
    String :=
  match head url with
  | none => url
  | some final =>
    if final = url then
      match get url with
      | none => url
      | some f2 => f2
    else final

/-- A `section.category` element of an issue page: its class list and the
`href` attributes of its `<a href>` descendants in document order. -/
structure IssueSection where
  classes : List String
  anchors : List String

/-- Advertisement section denylist (line 166). -/
def sponsorClass (c : String) : Bool :=
  c = "cc-powered-by" || c = "cc-sponsorfooter"

/-- Section kept by the loop at lines 164-167. -/
def keepSection (s : IssueSection) : Bool :=
  !(s.classes.any sponsorClass)

/-- Internal-link test of lines 171-173. -/
def internalLink (href : String) : Bool :=
  strStarts href "/" || strContains href "aiweekly.co"

/-- The dedup normalization of line 176: strip the query string and trailing
slashes.  Fragments are left untouched. -/
def normIssue (href : String) : String :=
  rstripSlash (takeBefore '?' href)

/-- The stream of candidate hrefs scanned by `parse_issue` (lines 164-182):
non-sponsor sections in order, each anchor stripped of surrounding
whitespace, internal links dropped. -/
def eligibleAnchors (page : List IssueSection) : List String :=
  joinMap (fun sec => (sec.anchors.map strTrim).filter (fun h => !internalLink h))
    (page.filter keepSection)

/-- The link-collection part of `parse_issue` (lines 159-183): first-seen
dedup by `normIssue`, appending the original href. -/
def parse_issue_links (page : List IssueSection) : List String :=
  dedupByKey normIssue [] (eligibleAnchors page)

/-- The per-item retry loop of `crawl` (lines 268-278): `f n` is the outcome
of attempt `n` of `extract_article` for one item — `some record` on success,
`none` when it raises; the first success of the three attempts wins. -/
def attempt3 {ρ : Type} (f : Nat → Option ρ) : Option ρ :=
  match f 0 with
  | some r => some r
  | none =>
    match f 1 with
    | some r => some r
    | none => f 2

/-- The main loop of `crawl` (lines 265-287): an item whose three attempts
all fail is skipped (logged, `continue`); each success appends one record to
the output stream, in order. -/
def crawl {α ρ : Type} (att : α → Nat → Option ρ) (urls : List α) :
    List ρ :=
  urls.filterMap (fun u => attempt3 (att u))

/-- The tail of `extract_article` (lines 233-239): the joined content is
rejected (a `ValueError` is raised) when it is empty or contains the
case-insensitive bot-challenge marker. -/
def extract_article_check (content : String) : Option String :=
  if content = "" || strContains (strLower content) marker then none
  else some content

/-- Helper for `pickSrc`: the `data-src` attribute if present and
non-empty. -/
def pickDataSrc (attrs : List (String × String)) : Option String :=
  match getAttr attrs "data-src" with
  | some s => if s = "" then none else some s
  | none => none

/-- Python `elem.get("src") or elem.get("data-src")` followed by the falsy
test of line 226: the first of the two attributes that is present and
non-empty, if any. -/
def pickSrc (attrs : List (String × String)) : Option String :=
  match getAttr attrs "src" with
  | some s => if s = "" then pickDataSrc attrs else some s
  | none => pickDataSrc attrs

/-- `absolutize` inside `extract_article` (lines 201-206): absolute sources
pass through, scheme-relative get `https:`, anything else is glued onto the
page URL (trailing slashes stripped) with a single slash. -/
def absolutize (url src : String) : String :=
  if strStarts src "http" then src
  else if strStarts src "//" then "https:" ++ src
  else rstripSlash url ++ "/" ++ lstripSlash src

/-- The contribution of a single descendant to the segment stream, before
image dedup: paragraph text (dropped when empty after stripping), or an
absolutized non-`.svg` image source. -/
def rawSeg (url : String) (n : Node) : Option Seg :=
  if nodeName n = some "p" then
    let t := getTextSep " " n
    if t = "" then none else some (.txt t)
  else if nodeName n = some "img" then
    match pickSrc (nodeAttrs n) with
    | none => none
    | some s =>
      if strEnds s ".svg" then none
      else some (.img (absolutize url s))
  else none

/-- The descendant scan of `extract_article` (lines 216-231), threading the
`seen_imgs` set. -/
def segLoop (url : String) (seen : List String) : List Node → List Seg
  | [] => []
  | n :: rest =>
    if nodeName n = some "p" then
      let t := getTextSep " " n
      if t = "" then segLoop url seen rest
      else .txt t :: segLoop url seen rest
    else if nodeName n = some "img" then
      match pickSrc (nodeAttrs n) with
      | none => segLoop url seen rest
      | some s =>
        if strEnds s ".svg" then segLoop url seen rest
        else
          let a := absolutize url s
          if a ∈ seen then segLoop url seen rest
          else .img a :: segLoop url (a :: seen) rest
    else segLoop url seen rest

/-- The segment stream produced by `extract_article` for a content root. -/
def extract_article_segs (url : String) (root : Node) : List Seg :=
  segLoop url [] (descendants root)

/-- The final content string of `extract_article` (line 233). -/
def extract_article_content (url : String) (root : Node) : String :=
  strTrim (String.intercalate " \n"
    ((extract_article_segs url root).map segVal))

end AIWeekly

/-- Modelled from the spec: the "site base" of a page URL — its scheme and
host — which the claim says root-relative image sources are joined with. -/
def sbAux : List Char → List Char
  | ':' :: '/' :: '/' :: rest =>
    ':' :: '/' :: '/' :: rest.takeWhile (fun c => c ≠ '/')
  | c :: rest => c :: sbAux rest
  | [] => []

/-- Modelled from the spec: scheme plus host of a URL. -/
def specSiteBase (u : String) : String :=
  ⟨sbAux u.toList⟩

/-- Modelled from the spec: "image sources, converted to absolute URLs
(scheme-relative → prefixed https:; root-relative → joined with site base;
otherwise passed through)". -/
def specAbsolutize (pageUrl src : String) : String :=
  if strStarts src "http" then src
  else if strStarts src "//" then "https:" ++ src
  else specSiteBase pageUrl ++ src

namespace HFBlog

/-! ### `src/Huggingface_Blog/crawl_hfb_api.py` -/

/-- The main loop of `crawl` (lines 130-136).  `fd u` is the outcome of
`fetch_detail u` — `some record` on success, `none` when it raises.  The
loop body contains no exception handling, so a raising item propagates:
processing stops, the records already streamed stay written, and the flag
`true` marks the aborted run. -/
def crawl {α ρ : Type} (fd : α → Option ρ) : List α → List ρ × Bool
  | [] => ([], false)
  | u :: rest =>
    match fd u with
    | some r =>
      let p := crawl fd rest
      (r :: p.1, p.2)
    | none => ([], true)

end HFBlog

/-- Modelled from the spec: the normalized form of a candidate URL with
query string, fragment and trailing slash all stripped (the claim's
normalization; no discoverer in the repository strips the fragment). -/
def normSpecFull (href : String) : String :=
  rstripSlash (takeBefore '#' (takeBefore '?' href))

namespace TechCrunch

/-! ### `src/TechCrunch_AI/crawl_tec_api.py` -/

/-- `parse_list` (lines 29-55).  A listing page is abstracted as the
per-selector match lists, in the order the code iterates the five
selectors; each match contributes its `href` stripped of the query string,
deduplicated by first occurrence across all tiers. -/
def parse_list (tiers : List (List String)) : List String :=
  dedupByKey (fun s => s) []
    ((joinMap (fun t => t) tiers).map (takeBefore '?'))

end TechCrunch

namespace Qbitai

/-! ### `src/量子位/crawl_lzw_api.py` -/

def BASE : String := "https://www.qbitai.com"

/-- A discovered listing entry: url plus pre-known title. -/
structure ListItem where
  url : String
  title : String
deriving DecidableEq

/-- URL absolutization applied in every tier (lines 35-36, 46-47, 54-55). -/
def absolutizeItem (it : ListItem) : ListItem :=
  if strStarts it.url "http" then it else ⟨BASE ++ it.url, it.title⟩

/-- `parse_list` (lines 28-57): tier 1 is `h2.entry-title a[href]`; only if
it produced nothing, tier 2 (`article` first-anchor); only if still empty,
tier 3 (homepage blocks).  Tiers are abstracted as their match lists. -/
def parse_list (t1 t2 t3 : List ListItem) : List ListItem :=
  let r1 := t1.map absolutizeItem
  if r1.isEmpty then
    let r2 := t2.map absolutizeItem
    if r2.isEmpty then t3.map absolutizeItem else r2
  else r1

end Qbitai

/-! ### JSON values (the `json.loads` output shape) -/

mutual
/-- A parsed JSON value. -/
inductive Json where
  | str (s : String)
  | num (n : Int)
  | bool (b : Bool)
  | null
  | arr (elems : JArr)
  | obj (fields : JObj)
/-- A JSON array. -/
inductive JArr where
  | nil
  | cons (head : Json) (tail : JArr)
/-- A JSON object: key/value fields in insertion order. -/
inductive JObj where
  | nil
  | cons (key : String) (val : Json) (tail : JObj)
end

/-- Python dict lookup `obj[key]` / `key in obj` on a JSON object. -/
def lookupJ : JObj → String → Option Json
  | .nil, _ => none
  | .cons k v rest, key => if k = key then some v else lookupJ rest key

/-- The value of a JSON string, if the value is a string. -/
def jsonAsStr : Json → Option String
  | .str s => some s
  | _ => none

/-- `"abstract" in obj and isinstance(obj["abstract"], str)` (line 105):
the object's own `abstract` entry when it is string-valued. -/
def objAbstract (fs : JObj) : Option String :=
  match lookupJ fs "abstract" with
  | some (.str s) => some s
  | _ => none

mutual
/-- `find_abstract` of `fetch_detail` (lines 103-116): each object returns
its own string-valued `abstract` entry outright (even when empty);
otherwise the values (in order) are searched recursively, and an empty
result from a child is treated as a miss (`if res:`), so the recursion
returns the first non-empty child result. -/
def find_abstract : Json → String
  | .obj fs =>
    match objAbstract fs with
    | some s => s
    | none => findFields fs
  | .arr xs => findElems xs
  | _ => ""
/-- The `for v in obj.values()` loop of `find_abstract`. -/
def findFields : JObj → String
  | .nil => ""
  | .cons _ v rest =>
    let r := find_abstract v
    if r = "" then findFields rest else r
/-- The `for v in obj` loop of `find_abstract` over an array. -/
def findElems : JArr → String
  | .nil => ""
  | .cons v rest =>
    let r := find_abstract v
    if r = "" then findElems rest else r
end

mutual
/-- Modelled from the spec: "search an embedded JSON data blob recursively
for a field named `abstract`, depth-first, first match wins" — the first
string-valued `abstract` field in plain document order. -/
def specFirstAbstract : Json → Option String
  | .obj fs => specFirstFields fs
  | .arr xs => specFirstElems xs
  | _ => none
/-- Document-order search of the fields of an object. -/
def specFirstFields : JObj → Option String
  | .nil => none
  | .cons k v rest =>
    match if k = "abstract" then jsonAsStr v else none with
    | some s => some s
    | none =>
      match specFirstAbstract v with
      | some s => some s
      | none => specFirstFields rest
/-- Document-order search of the elements of an array. -/
def specFirstElems : JArr → Option String
  | .nil => none
  | .cons v rest =>
    match specFirstAbstract v with
    | some s => some s
    | none => specFirstElems rest
end

mutual
/-- The search order the code actually implements: at each object the own
`abstract` key takes precedence, then the values in order. -/
def ownFirst : Json → Option String
  | .obj fs =>
    match objAbstract fs with
    | some s => some s
    | none => ownFields fs
  | .arr xs => ownElems xs
  | _ => none
/-- Own-key-first search over the fields of an object. -/
def ownFields : JObj → Option String
  | .nil => none
  | .cons _ v rest =>
    match ownFirst v with
    | some s => some s
    | none => ownFields rest
/-- Own-key-first search over the elements of an array. -/
def ownElems : JArr → Option String
  | .nil => none
  | .cons v rest =>
    match ownFirst v with
    | some s => some s
    | none => ownElems rest
end

mutual
/-- Whether every string-valued `abstract` entry in the blob is non-empty
(the regime in which the code's search and the first-match search agree). -/
def absOkJ : Json → Bool
  | .obj fs =>
    (match objAbstract fs with
     | some s => s != ""
     | none => true) && absOkF fs
  | .arr xs => absOkA xs
  | _ => true
/-- `absOkJ` over the fields of an object. -/
def absOkF : JObj → Bool
  | .nil => true
  | .cons _ v rest => absOkJ v && absOkF rest
/-- `absOkJ` over the elements of an array. -/
def absOkA : JArr → Bool
  | .nil => true
  | .cons v rest => absOkJ v && absOkA rest
end

/-- The values of a JSON object, in insertion order (`obj.values()`). -/
def jObjVals : JObj → List Json
  | .nil => []
  | .cons _ v rest => v :: jObjVals rest

/-- The elements of a JSON array, in order. -/
def jArrElems : JArr → List Json
  | .nil => []
  | .cons v rest => v :: jArrElems rest

/-- The first non-empty string of a list, or the empty string — the shape
of the `if res: return res` accumulation in `find_abstract`. -/
def firstNE : List String → String
  | [] => ""
  | s :: rest => if s = "" then firstNE rest else s

mutual
/-- Whether `s` occurs somewhere in the blob as the value of a
string-valued field named `abstract`. -/
def hasAbsJ : Json → String → Bool
  | .obj fs, s => hasAbsF fs s
  | .arr xs, s => hasAbsA xs s
  | _, _ => false
/-- `hasAbsJ` over the fields of an object. -/
def hasAbsF : JObj → String → Bool
  | .nil, _ => false
  | .cons k v rest, s =>
    (k == "abstract" &&
        (match v with
         | .str t => t == s
         | _ => false)) ||
      hasAbsJ v s || hasAbsF rest s
/-- `hasAbsJ` over the elements of an array. -/
def hasAbsA : JArr → String → Bool
  | .nil, _ => false
  | .cons v rest, s => hasAbsJ v s || hasAbsA rest s
end

namespace HFPapers

/-! ### `src/Huggingface_trending_paper/crawl_hf_paper_api.py` -/

/-- Split a class attribute value on whitespace (bs4 multi-valued class). -/
def splitWsAux (acc : List Char) : List Char → List String
  | [] => if acc.isEmpty then [] else [⟨acc.reverse⟩]
  | c :: t =>
    if c.isWhitespace then
      if acc.isEmpty then splitWsAux [] t
      else ⟨acc.reverse⟩ :: splitWsAux [] t
    else splitWsAux (c :: acc) t

/-- The class tokens of an attribute value. -/
def classTokens (v : String) : List String :=
  splitWsAux [] v.toList

/-- Whether an element carries a given CSS class. -/
def hasClass (n : Node) (c : String) : Bool :=
  match getAttr (nodeAttrs n) "class" with
  | some v => (classTokens v).contains c
  | none => false

/-- `soup.select_one("div.paper-details__abstract")` (line 82). -/
def paperDiv (page : Node) : Option Node :=
  (descendants page).find? (fun n =>
    nodeName n == some "div" && hasClass n "paper-details__abstract")

/-- `find_all("p")` with `get_text(" ", strip=True)`, empties dropped,
joined with newlines and stripped (lines 89-94 and 131-132). -/
def collectPs (n : Node) : String :=
  strTrim (String.intercalate "\n"
    (((descendants n).filter (fun d => nodeName d == some "p")).filterMap
      (fun d =>
        let t := getTextSep " " d
        if t = "" then none else some t)))

/-- BeautifulSoup `tag.string`: the single string below a tag when the tag
has exactly one child chain down to one text node. -/
def nodeString : Node → Option String
  | .text s => some s
  | .elem _ _ (.cons c .nil) => nodeString c
  | _ => none

/-- `soup.find("script", id="__NEXT_DATA__")` followed by the
`script_tag and script_tag.string` truthiness test (lines 98-99). -/
def scriptData (page : Node) : Option String :=
  match (descendants page).find? (fun n =>
      nodeName n == some "script" &&
        getAttr (nodeAttrs n) "id" == some "__NEXT_DATA__") with
  | some tag =>
    match nodeString tag with
    | some s => if s = "" then none else some s
    | none => none
  | none => none

/-- The `h2` test of line 126: its `.string` matches
`^\s*Abstract\s*$` case-insensitively. -/
def isAbstractH2 (n : Node) : Bool :=
  nodeName n == some "h2" &&
    (match nodeString n with
     | some s => strLower (strTrim s) == "abstract"
     | none => false)

mutual
/-- All (parent, child) pairs below a node, ordered by the child's
document-order position. -/
def childPairsN : Node → List (Node × Node)
  | .text _ => []
  | .elem t a cs => childPairsL (.elem t a cs) cs
/-- The (parent, child) pairs contributed by a child forest. -/
def childPairsL (parent : Node) : NodeList → List (Node × Node)
  | .nil => []
  | .cons c rest =>
    (parent, c) :: (childPairsN c ++ childPairsL parent rest)
end

/-- `soup.find("h2", string=...)` followed by `h2_abs.find_parent()`
(lines 126-129): the parent of the first matching `h2`. -/
def abstractH2Parent (page : Node) : Option Node :=
  match (childPairsN page).find? (fun pc => isAbstractH2 pc.2) with
  | some pc => some pc.1
  | none => none

/-- Tier 1 of the context computation (lines 82-94): paragraphs of the
abstract container. -/
def tier1 (page : Node) : String :=
  match paperDiv page with
  | some n => collectPs n
  | none => ""

/-- Tier 2 (lines 97-121): parse the `__NEXT_DATA__` blob (`jsonParse`
abstracts `json.loads`, `none` when it raises) and search it with
`find_abstract`, stripping the result. -/
def tier2 (jsonParse : String → Option Json) (page : Node) : String :=
  match scriptData page with
  | some s =>
    match jsonParse s with
    | some j => strTrim (find_abstract j)
    | none => ""
  | none => ""

/-- Tier 3 (lines 124-132): paragraphs under the parent of the `Abstract`
heading. -/
def tier3 (page : Node) : String :=
  match abstractH2Parent page with
  | some parent => collectPs parent
  | none => ""

/-- The context computation of `fetch_detail` (lines 80-134): each tier is
consulted only while the context is still empty. -/
def fetch_detail_context (jsonParse : String → Option Json)
    (page : Node) : String :=
  let c1 := tier1 page
  if c1 ≠ "" then c1
  else
    let c2 := tier2 jsonParse page
    if c2 ≠ "" then c2
    else tier3 page

end HFPapers

namespace Xinzhiyuan

/-! ### `src/新智源/crawl_xzy_api.py` -/

/-- A timeline status item as `parse_status`/`crawl` read it: its id (the
pagination cursor), its own url and creation date, the hrefs of the anchors
of its rendered content HTML in document order, and the stripped text of
that HTML (`get_text(" ", strip=True)`). -/
structure Status where
  id : Nat
  url : String
  created : String
  anchors : List String
  textShort : String

/-- The output record shape written by `crawl`. -/
structure OutRecord where
  url : String
  title : String
  date : String
  content : String
deriving DecidableEq

/-- `HUB_PATTERN.match` (line 24): prefix match of
`https?://hub.baai.ac.cn/view/<digits>`, returning the greedy matched text. -/
def matchHub (cs : List Char) : Option String :=
  if "https://hub.baai.ac.cn/view/".toList.isPrefixOf cs then
    let ds := (cs.drop 28).takeWhile Char.isDigit
    if ds.isEmpty then none else some ⟨"https://hub.baai.ac.cn/view/".toList ++ ds⟩
  else if "http://hub.baai.ac.cn/view/".toList.isPrefixOf cs then
    let ds := (cs.drop 27).takeWhile Char.isDigit
    if ds.isEmpty then none else some ⟨"http://hub.baai.ac.cn/view/".toList ++ ds⟩
  else none

/-- `HUB_PATTERN.search` over the rendered text: leftmost match. -/
def searchHub : List Char → Option String
  | [] => none
  | c :: t =>
    match matchHub (c :: t) with
    | some m => some m
    | none => searchHub t

/-- The hub-link selection of `parse_status` (lines 96-105): the first
anchor whose href prefix-matches the pattern (keeping the full href),
otherwise the first regex match inside the text. -/
def hubLink (st : Status) : Option String :=
  match st.anchors.find? (fun a => (matchHub a.toList).isSome) with
  | some a => some a
  | none => searchHub st.textShort.toList

/-- The fallback record of `parse_status` (lines 119-125), built from the
timeline item itself. -/
def fallbackRecord (st : Status) : OutRecord :=
  ⟨st.url,
    strTake st.textShort 40 ++ (if 40 < st.textShort.length then "…" else ""),
    st.created, st.textShort⟩

/-- `parse_status` (lines 91-125).  `hubFetch` abstracts
`fetch_hub_article`: `none` when it raises, otherwise the extracted
(title, full text).  Every status yields exactly one record. -/
def parse_status (hubFetch : String → Option (String × String))
    (st : Status) : OutRecord :=
  match hubLink st with
  | some l =>
    match hubFetch l with
    | some (title, full) =>
      ⟨l, if title = "" then strTake full 40 else title, st.created,
        if full = "" then st.textShort else full⟩
    | none => fallbackRecord st
  | none => fallbackRecord st

/-- `statuses[-1]["id"]` (line 147). -/
def lastId (sts : List Status) : Nat :=
  match sts.getLast? with
  | some s => s.id
  | none => 0

/-- The pagination loop of `crawl` (lines 136-148).  `server cur` is the
status page returned for cursor `cur` (`none` = no `max_id` parameter).
Returns the records written and the list of cursors requested, in order.
The loop terminates because every non-empty page advances `saved` by at
least one. -/
def crawlLoop (hubFetch : String → Option (String × String))
    (server : Option Nat → List Status) (limit : Nat) (saved : Nat)
    (cur : Option Nat) : List OutRecord × List (Option Nat) :=
  if _h : saved < limit then
    match server cur with
    | [] => ([], [cur])
    | s0 :: rest =>
      let nxt := crawlLoop hubFetch server limit
        (saved + min (s0 :: rest).length (limit - saved))
        (some (lastId (s0 :: rest)))
      ((((s0 :: rest).take (limit - saved)).map (parse_status hubFetch)) ++
          nxt.1,
        cur :: nxt.2)
  else ([], [])
termination_by limit - saved
decreasing_by
  simp_wf
  omega

/-- `crawl` (lines 128-150): run the loop from `saved = 0` with no cursor. -/
def crawl (hubFetch : String → Option (String × String))
    (server : Option Nat → List Status) (limit : Nat) :
    List OutRecord × List (Option Nat) :=
  crawlLoop hubFetch server limit 0 none

end Xinzhiyuan

namespace Jiqizhixin

/-! ### `src/机器之心/crawl_jqzx_api.py` -/

/-- The per-page item loop of `crawl` (lines 94-104).  `parse` abstracts
`parse_article_from_json` plus the write: `none` when it raises (the
exception is caught and the item skipped without advancing `saved`).
Threads the saved counter and stops early once the limit is reached. -/
def processArts {α ρ : Type} (parse : α → Option ρ) (limit : Nat) :
    List α → Nat → List ρ × Nat
  | [], s => ([], s)
  | a :: rest, s =>
    if limit ≤ s then ([], s)
    else
      match parse a with
      | some r =>
        let p := processArts parse limit rest (s + 1)
        (r :: p.1, p.2)
      | none => processArts parse limit rest s

/-- The pagination loop of `crawl` (lines 89-105), with explicit fuel
bounding the number of while-iterations (the Python loop has no such
bound).  Returns the records, the page numbers requested, and a flag that
is `true` only when the model ran out of fuel — i.e. `false` whenever the
loop exited through one of its own conditions. -/
def crawlLoop {α ρ : Type} (parse : α → Option ρ) (server : Nat → List α)
    (limit : Nat) : Nat → Nat → Nat → List ρ × List Nat × Bool
  | 0, _, _ => ([], [], true)
  | fuel + 1, saved, page =>
    if saved < limit then
      match server page with
      | [] => ([], [page], false)
      | a :: arts =>
        let pr := processArts parse limit (a :: arts) saved
        let nxt := crawlLoop parse server limit fuel pr.2 (page + 1)
        (pr.1 ++ nxt.1, page :: nxt.2.1, nxt.2.2)
    else ([], [], false)

/-- `crawl` (lines 82-107): pages start at 1 with `saved = 0`. -/
def crawl {α ρ : Type} (parse : α → Option ρ) (server : Nat → List α)
    (limit fuel : Nat) : List ρ × List Nat × Bool :=
  crawlLoop parse server limit fuel 0 1

end Jiqizhixin

/-! ### Fixtures -/

/-- Issue-page fixture: one ordinary section with two external links that
differ only in their fragment. -/
def issueFixtureC3 : List AIWeekly.IssueSection :=
  [⟨[], ["https://ex.com/a", "https://ex.com/a#sec"]⟩]

/-- TechCrunch fixture where tier 1 and tier 2 each match one link. -/
def tecTiersC4 : List (List String) :=
  [["https://techcrunch.com/a"], ["https://techcrunch.com/b"], [], [], []]

/-- Per-item outcome fixture for C2: item 1 always fails, the others
succeed with themselves as record. -/
def fetchC2 : Nat → Option Nat :=
  fun n => if n = 1 then none else some n

/-- Content-root fixture for C6: a single root-relative image source on a
page whose URL carries a path. -/
def imgFixtureC6 : Node :=
  .elem "article" []
    (.cons (.elem "p" [] (.cons (.text " Intro ") .nil))
      (.cons (.elem "img" [("src", "/i.png")] .nil) .nil))

/-- Timeline server fixture for C5: every page has exactly 20 statuses. -/
def serverC5 : Option Nat → List Xinzhiyuan.Status :=
  fun _ => (List.range 20).map (fun i => ⟨i, "u", "d", [], "t"⟩)

/-- Timeline status fixture for C10: carries an embedded hub anchor. -/
def statusC10 : Xinzhiyuan.Status :=
  ⟨7, "https://link.baai.ac.cn/s/1", "2024-01-01",
    ["https://hub.baai.ac.cn/view/123"], "short text"⟩

/-- JSON fixture for C9: the first `abstract` field (in document order) is
the empty string, a later one is non-empty. -/
def jFixtureC9 : Json :=
  .obj (.cons "a" (.obj (.cons "abstract" (.str "") .nil))
    (.cons "b" (.obj (.cons "abstract" (.str "Real abstract") .nil)) .nil))

/-- JSON fixture for the C9 witness: one non-empty `abstract` field. -/
def jWitnessC9 : Json :=
  .obj (.cons "abstract" (.str "A summary.") .nil)

/-- Page fixture for the C9 witness: no abstract container, only a
`__NEXT_DATA__` script blob. -/
def pageC9 : Node :=
  .elem "body" []
    (.cons (.elem "script" [("id", "__NEXT_DATA__")]
      (.cons (.text "DATA") .nil)) .nil)

/-! ## Helper lemmas -/

theorem dedupByKey_sublist (key : String → String) :
    ∀ (l : List String) (seen : List String),
      dedupByKey key seen l <+ l := by
  intro l
  induction l with
  | nil => intro seen; simp [dedupByKey]
  | cons h t ih =>
    intro seen
    rw [dedupByKey]
    by_cases hc : key h ∈ seen
    · rw [if_pos hc]; exact (ih seen).cons h
    · rw [if_neg hc]; exact (ih (key h :: seen)).cons₂ h

theorem dedupByKey_key_not_seen (key : String → String) :
    ∀ (l : List String) (seen : List String) (x : String),
      x ∈ dedupByKey key seen l → key x ∉ seen := by
  intro l
  induction l with
  | nil => intro seen x hx; simp [dedupByKey] at hx
  | cons h t ih =>
    intro seen x hx
    rw [dedupByKey] at hx
    by_cases hc : key h ∈ seen
    · rw [if_pos hc] at hx; exact ih seen x hx
    · rw [if_neg hc] at hx
      rcases List.mem_cons.mp hx with hx | hx
      · subst hx; exact hc
      · intro hmem
        exact ih (key h :: seen) x hx (List.mem_cons_of_mem _ hmem)

theorem dedupByKey_pairwise (key : String → String) :
    ∀ (l : List String) (seen : List String),
      (dedupByKey key seen l).Pairwise (fun a b => key a ≠ key b) := by
  intro l
  induction l with
  | nil => intro seen; simp [dedupByKey]
  | cons h t ih =>
    intro seen
    rw [dedupByKey]
    by_cases hc : key h ∈ seen
    · rw [if_pos hc]; exact ih seen
    · rw [if_neg hc]
      refine List.Pairwise.cons ?_ (ih (key h :: seen))
      intro b hb heq
      exact dedupByKey_key_not_seen key t (key h :: seen) b hb
        (heq ▸ List.mem_cons_self (key h) seen)

theorem dedupByKey_id_mem :
    ∀ (l : List String) (seen : List String) (x : String),
      x ∈ dedupByKey (fun s => s) seen l ↔ x ∈ l ∧ x ∉ seen := by
  intro l
  induction l with
  | nil => intro seen x; simp [dedupByKey]
  | cons h t ih =>
    intro seen x
    rw [dedupByKey]
    by_cases hc : h ∈ seen
    · rw [if_pos hc, ih]
      constructor
      · rintro ⟨hx, hs⟩
        exact ⟨List.mem_cons_of_mem _ hx, hs⟩
      · rintro ⟨hx, hs⟩
        rcases List.mem_cons.mp hx with hx | hx
        · subst hx; exact absurd hc hs
        · exact ⟨hx, hs⟩
    · rw [if_neg hc]
      constructor
      · intro hx
        rcases List.mem_cons.mp hx with hx | hx
        · subst hx
          exact ⟨List.mem_cons_self _ _, hc⟩
        · have := (ih (h :: seen) x).mp hx
          exact ⟨List.mem_cons_of_mem _ this.1,
            fun hmem => this.2 (List.mem_cons_of_mem _ hmem)⟩
      · rintro ⟨hx, hs⟩
        rcases List.mem_cons.mp hx with hx | hx
        · subst hx; exact List.mem_cons_self _ _
        · by_cases hxh : x = h
          · subst hxh; exact List.mem_cons_self _ _
          · refine List.mem_cons_of_mem _ ((ih (h :: seen) x).mpr ⟨hx, ?_⟩)
            intro hmem
            rcases List.mem_cons.mp hmem with hm | hm
            · exact hxh hm
            · exact hs hm

theorem dedupSegs_sublist :
    ∀ (l : List Seg) (seen : List String), dedupSegs seen l <+ l := by
  intro l
  induction l with
  | nil => intro seen; simp [dedupSegs]
  | cons h t ih =>
    intro seen
    rcases h with t0 | u
    · exact (ih seen).cons₂ _
    · rw [dedupSegs]
      by_cases hc : u ∈ seen
      · rw [if_pos hc]; exact (ih seen).cons _
      · rw [if_neg hc]; exact (ih (u :: seen)).cons₂ _

theorem dedupSegs_img_not_seen :
    ∀ (l : List Seg) (seen : List String) (u : String),
      Seg.img u ∈ dedupSegs seen l → u ∉ seen := by
  intro l
  induction l with
  | nil => intro seen u hu; simp [dedupSegs] at hu
  | cons h t ih =>
    intro seen u hu
    rcases h with t0 | v
    · rw [dedupSegs] at hu
      rcases List.mem_cons.mp hu with hu | hu
      · exact absurd hu (by simp)
      · exact ih seen u hu
    · rw [dedupSegs] at hu
      by_cases hc : v ∈ seen
      · rw [if_pos hc] at hu; exact ih seen u hu
      · rw [if_neg hc] at hu
        rcases List.mem_cons.mp hu with hu | hu
        · cases hu; exact hc
        · intro hmem
          exact ih (v :: seen) u hu (List.mem_cons_of_mem _ hmem)

theorem dedupSegs_imgs_pairwise :
    ∀ (l : List Seg) (seen : List String),
      ((dedupSegs seen l).filterMap imgVal).Pairwise (fun a b => a ≠ b) := by
  intro l
  induction l with
  | nil => intro seen; simp [dedupSegs]
  | cons h t ih =>
    intro seen
    rcases h with t0 | u
    · rw [dedupSegs]
      simpa [List.filterMap_cons, imgVal] using ih seen
    · rw [dedupSegs]
      by_cases hc : u ∈ seen
      · rw [if_pos hc]; exact ih seen
      · rw [if_neg hc]
        rw [List.filterMap_cons]
        simp only [imgVal]
        refine List.Pairwise.cons ?_ (ih (u :: seen))
        intro b hb heq
        have hmem : Seg.img b ∈ dedupSegs (u :: seen) t := by
          rcases List.mem_filterMap.mp hb with ⟨sg, hsg, hv⟩
          rcases sg with t1 | v
          · simp [imgVal] at hv
          · simp [imgVal] at hv
            subst hv; exact hsg
        exact dedupSegs_img_not_seen t (u :: seen) b hmem
          (heq ▸ List.mem_cons_self u seen)

theorem segLoop_eq_dedup (url : String) :
    ∀ (l : List Node) (seen : List String),
      AIWeekly.segLoop url seen l =
        dedupSegs seen (l.filterMap (AIWeekly.rawSeg url)) := by
  intro l
  induction l with
  | nil => intro seen; simp [AIWeekly.segLoop, dedupSegs]
  | cons n rest ih =>
    intro seen
    by_cases hp : nodeName n = some "p"
    · by_cases ht : getTextSep " " n = ""
      · simp [AIWeekly.segLoop, AIWeekly.rawSeg, hp, ht, ih]
      · simp [AIWeekly.segLoop, AIWeekly.rawSeg, hp, ht, ih, dedupSegs]
    · by_cases hi : nodeName n = some "img"
      · rcases hs : AIWeekly.pickSrc (nodeAttrs n) with _ | s
        · simp [AIWeekly.segLoop, AIWeekly.rawSeg, hp, hi, hs, ih]
        · by_cases hsvg : strEnds s ".svg"
          · simp [AIWeekly.segLoop, AIWeekly.rawSeg, hp, hi, hs, hsvg, ih]
          · by_cases hmem : AIWeekly.absolutize url s ∈ seen
            · simp [AIWeekly.segLoop, AIWeekly.rawSeg, hp, hi, hs, hsvg,
                hmem, ih, dedupSegs]
            · simp [AIWeekly.segLoop, AIWeekly.rawSeg, hp, hi, hs, hsvg,
                hmem, ih, dedupSegs]
      · simp [AIWeekly.segLoop, AIWeekly.rawSeg, hp, hi, ih]

theorem xzyLoop_records (hf : String → Option (String × String))
    (server : Option Nat → List Xinzhiyuan.Status) (limit : Nat) :
    ∀ (n saved : Nat) (cur : Option Nat), limit - saved ≤ n →
      (Xinzhiyuan.crawlLoop hf server limit saved cur).1 =
        ((joinMap server
            (Xinzhiyuan.crawlLoop hf server limit saved cur).2).take
          (limit - saved)).map (Xinzhiyuan.parse_status hf) := by
  intro n
  induction n with
  | zero =>
    intro saved cur hle
    have hge : ¬ saved < limit := by omega
    rw [Xinzhiyuan.crawlLoop]
    simp [hge, joinMap]
  | succ n ih =>
    intro saved cur hle
    by_cases hlt : saved < limit
    · rw [Xinzhiyuan.crawlLoop]
      rcases hsv : server cur with _ | ⟨s0, rest⟩
      · simp [hlt, hsv, joinMap]
      · simp only [dif_pos hlt, hsv, joinMap]
        have harith : limit - saved - (s0 :: rest).length =
            limit - (saved + min (s0 :: rest).length (limit - saved)) := by
          simp only [List.length_cons]
          omega
        rw [List.take_append_eq_append_take, List.map_append, harith,
          ← ih (saved + min (s0 :: rest).length (limit - saved)) _
            (by simp only [List.length_cons]; omega)]
    · rw [Xinzhiyuan.crawlLoop]
      simp [hlt, joinMap]

theorem xzyLoop_cursors_shape (hf : String → Option (String × String))
    (server : Option Nat → List Xinzhiyuan.Status) (limit saved : Nat)
    (cur : Option Nat) :
    (Xinzhiyuan.crawlLoop hf server limit saved cur).2 = [] ∨
    ∃ t, (Xinzhiyuan.crawlLoop hf server limit saved cur).2 = cur :: t := by
  rw [Xinzhiyuan.crawlLoop]
  by_cases hlt : saved < limit
  · rcases hsv : server cur with _ | ⟨s0, rest⟩
    · simp [hlt, hsv]
    · simp only [dif_pos hlt, hsv]
      exact Or.inr ⟨_, rfl⟩
  · simp [hlt]

theorem xzyLoop_chain (hf : String → Option (String × String))
    (server : Option Nat → List Xinzhiyuan.Status) (limit : Nat) :
    ∀ (n saved : Nat) (cur : Option Nat), limit - saved ≤ n →
      List.Chain' (fun a b => b = some (Xinzhiyuan.lastId (server a)))
        (Xinzhiyuan.crawlLoop hf server limit saved cur).2 := by
  intro n
  induction n with
  | zero =>
    intro saved cur hle
    have hge : ¬ saved < limit := by omega
    rw [Xinzhiyuan.crawlLoop]
    simp [hge]
  | succ n ih =>
    intro saved cur hle
    by_cases hlt : saved < limit
    · rw [Xinzhiyuan.crawlLoop]
      rcases hsv : server cur with _ | ⟨s0, rest⟩
      · simp [hlt, hsv]
      · simp only [dif_pos hlt, hsv]
        rw [List.chain'_cons']
        constructor
        · intro y hy
          rcases xzyLoop_cursors_shape hf server limit
              (saved + min (s0 :: rest).length (limit - saved))
              (some (Xinzhiyuan.lastId (s0 :: rest))) with hsh | ⟨t, hsh⟩
          · rw [hsh] at hy
            simp at hy
          · rw [hsh] at hy
            simp at hy
            rw [← hy, hsv]
        · exact ih _ _ (by simp only [List.length_cons]; omega)
    · rw [Xinzhiyuan.crawlLoop]
      simp [hlt]

theorem xzyLoop_curs_len20 (hf : String → Option (String × String))
    (server : Option Nat → List Xinzhiyuan.Status) (limit : Nat)
    (hs : ∀ c, (server c).length = 20) :
    ∀ (n saved : Nat) (cur : Option Nat), limit - saved ≤ n →
      saved < limit →
      (Xinzhiyuan.crawlLoop hf server limit saved cur).2.length =
        (limit - saved + 19) / 20 := by
  intro n
  induction n with
  | zero =>
    intro saved cur hle hlt
    omega
  | succ n ih =>
    intro saved cur hle hlt
    rw [Xinzhiyuan.crawlLoop]
    rcases hsv : server cur with _ | ⟨s0, rest⟩
    · have := hs cur
      rw [hsv] at this
      simp at this
    · have hlen : (s0 :: rest).length = 20 := by rw [← hsv]; exact hs cur
      simp only [dif_pos hlt]
      by_cases hend : limit - saved ≤ 20
      · have hstop : ¬ (saved + min (s0 :: rest).length (limit - saved) < limit) := by
          rw [hlen]; omega
        rw [Xinzhiyuan.crawlLoop, dif_neg hstop]
        simp only [List.length_cons, List.length_nil]
        omega
      · have hnext : saved + min (s0 :: rest).length (limit - saved) < limit := by
          rw [hlen]; omega
        rw [List.length_cons,
          ih (saved + min (s0 :: rest).length (limit - saved)) _
            (by rw [hlen]; omega) hnext, hlen]
        omega

theorem joinMap_length_const {γ σ : Type} (f : γ → List σ) (L : Nat)
    (hs : ∀ c, (f c).length = L) :
    ∀ l : List γ, (joinMap f l).length = L * l.length := by
  intro l
  induction l with
  | nil => simp [joinMap]
  | cons c t ih =>
    simp only [joinMap, List.length_append, List.length_cons, ih, hs c]
    ring

theorem jqzx_processArts_spec {α ρ : Type} (parse : α → Option ρ)
    (limit : Nat) :
    ∀ (l : List α) (s : Nat), s ≤ limit →
      (Jiqizhixin.processArts parse limit l s).2 ≤ limit ∧
      (Jiqizhixin.processArts parse limit l s).1.length + s =
        (Jiqizhixin.processArts parse limit l s).2 := by
  intro l
  induction l with
  | nil =>
    intro s hle
    simp [Jiqizhixin.processArts, hle]
  | cons a rest ih =>
    intro s hle
    rw [Jiqizhixin.processArts]
    by_cases hstop : limit ≤ s
    · simp [hstop, hle]
    · simp only [hstop, if_false]
      rcases hp : parse a with _ | r
      · exact ih s hle
      · have := ih (s + 1) (by omega)
        simp only [List.length_cons]
        constructor
        · exact this.1
        · omega

theorem jqzxLoop_le {α ρ : Type} (parse : α → Option ρ)
    (server : Nat → List α) (limit : Nat) :
    ∀ (fuel saved page : Nat), saved ≤ limit →
      (Jiqizhixin.crawlLoop parse server limit fuel saved page).1.length +
        saved ≤ limit := by
  intro fuel
  induction fuel with
  | zero =>
    intro saved page hle
    simpa [Jiqizhixin.crawlLoop] using hle
  | succ fuel ih =>
    intro saved page hle
    rw [Jiqizhixin.crawlLoop]
    by_cases hlt : saved < limit
    · rcases hsv : server page with _ | ⟨a, arts⟩
      · simpa [hlt, hsv] using hle
      · simp only [if_pos hlt, List.length_append]
        have hpr := jqzx_processArts_spec parse limit (a :: arts) saved
          (by omega)
        have hnx := ih (Jiqizhixin.processArts parse limit (a :: arts) saved).2
          (page + 1) hpr.1
        omega
    · simpa [hlt] using hle

mutual
theorem findJ_own : ∀ j : Json, absOkJ j = true →
    find_abstract j = (ownFirst j).getD "" ∧ ownFirst j ≠ some ""
  | .str s, _h => by simp [find_abstract, ownFirst]
  | .num n, _h => by simp [find_abstract, ownFirst]
  | .bool b, _h => by simp [find_abstract, ownFirst]
  | .null, _h => by simp [find_abstract, ownFirst]
  | .arr xs, h => by
    have := findA_own xs (by simpa [absOkJ] using h)
    simpa [find_abstract, ownFirst] using this
  | .obj fs, h => by
    rcases hoa : objAbstract fs with _ | s
    · have hf : absOkF fs = true := by
        rw [absOkJ, hoa] at h
        simpa using h
      have := findF_own fs hf
      simpa [find_abstract, ownFirst, hoa] using this
    · have hs : s ≠ "" := by
        rw [absOkJ, hoa] at h
        simp at h
        exact h.1
      simp [find_abstract, ownFirst, hoa, hs]
theorem findF_own : ∀ fs : JObj, absOkF fs = true →
    findFields fs = (ownFields fs).getD "" ∧ ownFields fs ≠ some ""
  | .nil, _h => by simp [findFields, ownFields]
  | .cons k v rest, h => by
    have hv : absOkJ v = true := by
      rw [absOkF, Bool.and_eq_true] at h; exact h.1
    have hr : absOkF rest = true := by
      rw [absOkF, Bool.and_eq_true] at h; exact h.2
    have ihv := findJ_own v hv
    have ihr := findF_own rest hr
    rcases ho : ownFirst v with _ | s
    · simp [findFields, ownFields, ihv.1, ho, ihr.1, ihr.2]
    · have hs : s ≠ "" := fun he => ihv.2 (by rw [ho, he])
      simp [findFields, ownFields, ihv.1, ho, hs]
theorem findA_own : ∀ xs : JArr, absOkA xs = true →
    findElems xs = (ownElems xs).getD "" ∧ ownElems xs ≠ some ""
  | .nil, _h => by simp [findElems, ownElems]
  | .cons v rest, h => by
    have hv : absOkJ v = true := by
      rw [absOkA, Bool.and_eq_true] at h; exact h.1
    have hr : absOkA rest = true := by
      rw [absOkA, Bool.and_eq_true] at h; exact h.2
    have ihv := findJ_own v hv
    have ihr := findA_own rest hr
    rcases ho : ownFirst v with _ | s
    · simp [findElems, ownElems, ihv.1, ho, ihr.1, ihr.2]
    · have hs : s ≠ "" := fun he => ihv.2 (by rw [ho, he])
      simp [findElems, ownElems, ihv.1, ho, hs]
end

theorem objAbstract_lookupJ (fs : JObj) (s : String)
    (h : objAbstract fs = some s) :
    lookupJ fs "abstract" = some (.str s) := by
  rw [objAbstract] at h
  rcases hl : lookupJ fs "abstract" with _ | v
  · rw [hl] at h; cases h
  · rw [hl] at h
    rcases v with t | n | b | _ | xs | gs
    · cases h; rfl
    · cases h
    · cases h
    · cases h
    · cases h
    · cases h

theorem lookupJ_abstract_hasAbs :
    ∀ (fs : JObj) (s : String),
      lookupJ fs "abstract" = some (.str s) → hasAbsF fs s = true
  | .nil, s, h => by cases h
  | .cons k v rest, s, h => by
    rw [lookupJ] at h
    by_cases hk : k = "abstract"
    · rw [if_pos hk] at h
      cases h
      simp [hasAbsF, hk]
    · rw [if_neg hk] at h
      simp [hasAbsF, lookupJ_abstract_hasAbs rest s h]

theorem findFields_eq_firstNE :
    ∀ fs : JObj,
      findFields fs = firstNE ((jObjVals fs).map find_abstract)
  | .nil => by simp [findFields, jObjVals, firstNE]
  | .cons k v rest => by
    by_cases hv : find_abstract v = ""
    · simp [findFields, jObjVals, firstNE, hv, findFields_eq_firstNE rest]
    · simp [findFields, jObjVals, firstNE, hv]

theorem findElems_eq_firstNE :
    ∀ xs : JArr,
      findElems xs = firstNE ((jArrElems xs).map find_abstract)
  | .nil => by simp [findElems, jArrElems, firstNE]
  | .cons v rest => by
    by_cases hv : find_abstract v = ""
    · simp [findElems, jArrElems, firstNE, hv, findElems_eq_firstNE rest]
    · simp [findElems, jArrElems, firstNE, hv]

mutual
theorem find_sound : ∀ j : Json, find_abstract j ≠ "" →
    hasAbsJ j (find_abstract j) = true
  | .str s, h => absurd rfl h
  | .num n, h => absurd rfl h
  | .bool b, h => absurd rfl h
  | .null, h => absurd rfl h
  | .arr xs, h => by
    simp only [find_abstract] at h ⊢
    simpa [hasAbsJ] using findA_sound xs h
  | .obj fs, h => by
    rcases hoa : objAbstract fs with _ | s
    · simp only [find_abstract, hoa] at h ⊢
      simpa [hasAbsJ] using findF_sound fs h
    · simp only [find_abstract, hoa] at h ⊢
      simpa [hasAbsJ] using
        lookupJ_abstract_hasAbs fs s (objAbstract_lookupJ fs s hoa)
theorem findF_sound : ∀ fs : JObj, findFields fs ≠ "" →
    hasAbsF fs (findFields fs) = true
  | .nil, h => absurd rfl h
  | .cons k v rest, h => by
    by_cases hv : find_abstract v = ""
    · simp only [findFields, hv, if_pos rfl] at h ⊢
      simp [hasAbsF, findF_sound rest h]
    · simp only [findFields, hv, if_neg hv] at h ⊢
      simp [hasAbsF, find_sound v hv]
theorem findA_sound : ∀ xs : JArr, findElems xs ≠ "" →
    hasAbsA xs (findElems xs) = true
  | .nil, h => absurd rfl h
  | .cons v rest, h => by
    by_cases hv : find_abstract v = ""
    · simp only [findElems, hv, if_pos rfl] at h ⊢
      simp [hasAbsA, findA_sound rest h]
    · simp only [findElems, hv, if_neg hv] at h ⊢
      simp [hasAbsA, find_sound v hv]
end

/-! ## Claim theorems -/

/-! ### Claim C1: fetch strategy escalation -/

/-- C1: `fetch_html` tries direct GET, then cloudscraper (only if available),
then Playwright (only if available); strategy 1 succeeds with the body
exactly when the status is 200 and the body does not contain the
case-insensitive challenge marker; on any other status or on an exception
the next strategy is tried; the call fails only when every available
strategy has been tried and has failed. -/
theorem C1_fetch_strategy_escalation (a1 : AIWeekly.Attempt)
    (cloud : Option AIWeekly.Attempt) (pw : Option (Option String)) :
    (∀ s b, AIWeekly.req1Success (.resp s b) = some b ↔
      s = 200 ∧ strContains (strLower b) AIWeekly.marker = false) ∧
    (∀ b, AIWeekly.req1Success a1 = some b →
      AIWeekly.fetch_html a1 cloud pw = .ok b) ∧
    (AIWeekly.req1Success a1 = none →
      AIWeekly.fetch_html a1 cloud pw = AIWeekly.cloudStage cloud pw) ∧
    (∀ att, AIWeekly.cloudSuccess att = none →
      AIWeekly.cloudStage (some att) pw = AIWeekly.playwrightStage pw) ∧
    (AIWeekly.fetchFailed (AIWeekly.fetch_html a1 cloud pw) = true ↔
      AIWeekly.req1Success a1 = none ∧
      (∀ att, cloud = some att → AIWeekly.cloudSuccess att = none) ∧
      (pw = none ∨ pw = some none)) := by
  refine ⟨?_, ?_, ?_, ?_, ?_⟩
  · intro s b
    by_cases hs : s = 200
    · subst hs
      cases hm : strContains (strLower b) AIWeekly.marker with
      | true => simp [AIWeekly.req1Success, hm]
      | false => simp [AIWeekly.req1Success, hm]
    · simp [AIWeekly.req1Success, hs]
  · intro b h
    simp [AIWeekly.fetch_html, h]
  · intro h
    simp [AIWeekly.fetch_html, h]
  · intro att h
    simp [AIWeekly.cloudStage, h]
  · rcases h1 : AIWeekly.req1Success a1 with _ | b
    · rcases hcl : cloud with _ | att
      · rcases hp : pw with _ | op
        · simp [AIWeekly.fetch_html, h1, AIWeekly.cloudStage,
            AIWeekly.playwrightStage, AIWeekly.fetchFailed]
        · rcases op with _ | html <;>
            simp [AIWeekly.fetch_html, h1, AIWeekly.cloudStage,
              AIWeekly.playwrightStage, AIWeekly.fetchFailed]
      · rcases hc2 : AIWeekly.cloudSuccess att with _ | b2
        · rcases hp : pw with _ | op
          · simp [AIWeekly.fetch_html, h1, AIWeekly.cloudStage, hc2,
              AIWeekly.playwrightStage, AIWeekly.fetchFailed]
          · rcases op with _ | html <;>
              simp [AIWeekly.fetch_html, h1, AIWeekly.cloudStage, hc2,
                AIWeekly.playwrightStage, AIWeekly.fetchFailed]
        · simp [AIWeekly.fetch_html, h1, AIWeekly.cloudStage, hc2,
            AIWeekly.fetchFailed, hc2]
    · simp [AIWeekly.fetch_html, h1, AIWeekly.fetchFailed]

/-- C1 witness: a direct 200 response with a clean body is returned by the
first strategy. -/
theorem C1_fetch_strategy_escalation_witness :
    AIWeekly.fetch_html (.resp 200 "hello world") none none =
      .ok "hello world" :=
  (C1_fetch_strategy_escalation (.resp 200 "hello world") none none).2.1
    "hello world" (by decide)

/-! ### Claim C2: per-item failures are caught and skipped -/

/-- C2 counterexample: the Huggingface_Blog orchestrator (also cited by the
claim) catches nothing.  With items `[0, 1, 2]` where item 1 fails, the run
aborts after the first record: item 2 would have succeeded but is never
saved, so a single item failure does abort this run instead of being
skipped. -/
theorem C2_counterexample :
    HFBlog.crawl fetchC2 [0, 1, 2] = ([0], true) ∧
    fetchC2 2 = some 2 ∧
    (2 : Nat) ∉ (HFBlog.crawl fetchC2 [0, 1, 2]).1 := by
  refine ⟨by decide, rfl, by decide⟩

/-- C2 amended: in the AI_Weekly orchestrator the claim holds — an item
whose three attempts all fail is skipped, the run continues with the
remaining items, the saved count is exactly the number of items with a
successful attempt, and content containing the bot-challenge marker makes
`extract_article` raise — but the Huggingface_Blog orchestrator has no
per-item handler, so there a failing item aborts the rest of the run. -/
theorem C2_skip_amended {α ρ : Type} (att : α → Nat → Option ρ)
    (pre post : List α) (bad : α)
    (hbad : AIWeekly.attempt3 (att bad) = none) :
    AIWeekly.crawl att (pre ++ bad :: post) =
      AIWeekly.crawl att pre ++ AIWeekly.crawl att post ∧
    (∀ urls : List α, (AIWeekly.crawl att urls).length =
      (urls.filter (fun u => (AIWeekly.attempt3 (att u)).isSome)).length) ∧
    (∀ c : String, strContains (strLower c) AIWeekly.marker = true →
      AIWeekly.extract_article_check c = none) ∧
    (∀ (fd : α → Option ρ) (rest : List α), fd bad = none →
      HFBlog.crawl fd (bad :: rest) = ([], true)) := by
  refine ⟨?_, ?_, ?_, ?_⟩
  · simp [AIWeekly.crawl, List.filterMap_append, List.filterMap_cons, hbad]
  · intro urls
    induction urls with
    | nil => rfl
    | cons u rest ih =>
      rcases h : AIWeekly.attempt3 (att u) with _ | r
      · simpa [AIWeekly.crawl, List.filterMap_cons, h, List.filter_cons]
          using ih
      · simpa [AIWeekly.crawl, List.filterMap_cons, h, List.filter_cons]
          using ih
  · intro c h
    simp [AIWeekly.extract_article_check, h]
  · intro fd rest h
    simp [HFBlog.crawl, h]

/-- C2 witness: with a concrete attempt function failing only on item 1,
the AI_Weekly loop skips it and keeps the surrounding items. -/
theorem C2_skip_amended_witness :
    AIWeekly.crawl (fun n _ => fetchC2 n) ([0] ++ 1 :: [2]) =
      AIWeekly.crawl (fun n _ => fetchC2 n) [0] ++
        AIWeekly.crawl (fun n _ => fetchC2 n) [2] :=
  (C2_skip_amended (fun n _ => fetchC2 n) [0] [2] 1 (by decide)).1

/-! ### Claim C3: dedup invariant and order preservation -/

/-- C3 counterexample: `parse_issue` keeps both links that differ only in
their fragment, so the discovered sequence contains two entries whose
normalized forms (query, fragment and trailing slash stripped) are equal —
the code never strips fragments. -/
theorem C3_counterexample :
    AIWeekly.parse_issue_links issueFixtureC3 =
      ["https://ex.com/a", "https://ex.com/a#sec"] ∧
    normSpecFull "https://ex.com/a" = normSpecFull "https://ex.com/a#sec" ∧
    ("https://ex.com/a" : String) ≠ "https://ex.com/a#sec" := by
  refine ⟨by decide, by decide, by decide⟩

/-- C3 amended: the discoverers dedup by their own normalizations — the
issue parser by query-string and trailing-slash strip (fragments kept), the
TechCrunch parser by exact query-stripped href — and under those
normalizations no two entries collide; entries appear in first-occurrence
order of the underlying anchor stream. -/
theorem C3_dedup_order_amended (page : List AIWeekly.IssueSection)
    (tiers : List (List String)) :
    (AIWeekly.parse_issue_links page).Pairwise
      (fun a b => AIWeekly.normIssue a ≠ AIWeekly.normIssue b) ∧
    AIWeekly.parse_issue_links page <+ AIWeekly.eligibleAnchors page ∧
    (TechCrunch.parse_list tiers).Pairwise (fun a b => a ≠ b) ∧
    TechCrunch.parse_list tiers <+
      (joinMap (fun t => t) tiers).map (takeBefore '?') := by
  refine ⟨dedupByKey_pairwise _ _ _, dedupByKey_sublist _ _ _, ?_,
    dedupByKey_sublist _ _ _⟩
  exact dedupByKey_pairwise (fun s => s) _ _

/-- C3 witness: the amended dedup invariant on the concrete issue-page
fixture. -/
theorem C3_dedup_order_amended_witness :
    (AIWeekly.parse_issue_links issueFixtureC3).Pairwise
      (fun a b => AIWeekly.normIssue a ≠ AIWeekly.normIssue b) :=
  (C3_dedup_order_amended issueFixtureC3 []).1

/-! ### Claim C4: selector-tier fallback monotonicity -/

/-- C4 counterexample: TechCrunch's `parse_list` consults every selector
tier even when tier 1 already matched: tier 2's entry still appears in the
output, so the output is not computed from the first non-empty tier. -/
theorem C4_counterexample :
    tecTiersC4.head? = some ["https://techcrunch.com/a"] ∧
    (["https://techcrunch.com/a"] : List String) ≠ [] ∧
    TechCrunch.parse_list tecTiersC4 =
      ["https://techcrunch.com/a", "https://techcrunch.com/b"] ∧
    TechCrunch.parse_list tecTiersC4 ≠ ["https://techcrunch.com/a"] := by
  refine ⟨rfl, by decide, by decide, by decide⟩

/-- C4 amended: the qbitai discoverer does short-circuit — a non-empty tier
hides all lower tiers — but the TechCrunch discoverer accumulates matches
from all five tiers with first-occurrence dedup, so lower tiers do
contribute entries. -/
theorem C4_fallback_amended :
    (∀ t1 t2 t3 : List Qbitai.ListItem, t1 ≠ [] →
      Qbitai.parse_list t1 t2 t3 = t1.map Qbitai.absolutizeItem) ∧
    (∀ t2 t3 : List Qbitai.ListItem, t2 ≠ [] →
      Qbitai.parse_list [] t2 t3 = t2.map Qbitai.absolutizeItem) ∧
    (∀ t3 : List Qbitai.ListItem,
      Qbitai.parse_list [] [] t3 = t3.map Qbitai.absolutizeItem) ∧
    (∀ tiers x, x ∈ TechCrunch.parse_list tiers ↔
      x ∈ (joinMap (fun t => t) tiers).map (takeBefore '?')) := by
  refine ⟨?_, ?_, ?_, ?_⟩
  · intro t1 t2 t3 h1
    rcases t1 with _ | ⟨a, t⟩
    · exact absurd rfl h1
    · simp [Qbitai.parse_list]
  · intro t2 t3 h2
    rcases t2 with _ | ⟨a, t⟩
    · exact absurd rfl h2
    · simp [Qbitai.parse_list]
  · intro t3
    simp [Qbitai.parse_list]
  · intro tiers x
    rw [TechCrunch.parse_list, dedupByKey_id_mem]
    simp

/-- C4 witness: a root-relative tier-1 match short-circuits the qbitai
fallback chain. -/
theorem C4_fallback_amended_witness :
    Qbitai.parse_list [⟨"/a", "t"⟩] [⟨"/b", "u"⟩] [] =
      [Qbitai.ListItem.mk "/a" "t"].map Qbitai.absolutizeItem :=
  C4_fallback_amended.1 [⟨"/a", "t"⟩] [⟨"/b", "u"⟩] [] (by decide)

/-! ### Claim C5: pagination -/

/-- C5: with pages of exactly 20 items and limit 45, the timeline crawler
issues exactly 3 page requests and saves 45 records; in general both
pagination loops save at most `limit` records, the timeline loop carries
the last item's id forward as the next request's cursor (the page loop the
next page number), and the loops terminate — the timeline loop is a total
function and the page loop exits through its own conditions (flag `false`)
on the 20-per-page scenario. -/
theorem C5_pagination (hf : String → Option (String × String))
    (server : Option Nat → List Xinzhiyuan.Status)
    (hs20 : ∀ c, (server c).length = 20) :
    (∀ (srv : Option Nat → List Xinzhiyuan.Status) (lim : Nat),
      (Xinzhiyuan.crawl hf srv lim).1.length ≤ lim) ∧
    ((Xinzhiyuan.crawl hf server 45).2.length = 3 ∧
      (Xinzhiyuan.crawl hf server 45).1.length = 45) ∧
    (∀ (srv : Option Nat → List Xinzhiyuan.Status) (lim : Nat),
      List.Chain' (fun a b => b = some (Xinzhiyuan.lastId (srv a)))
        (Xinzhiyuan.crawl hf srv lim).2) ∧
    (∀ (α ρ : Type) (parse : α → Option ρ) (srv2 : Nat → List α)
      (lim fuel : Nat),
      (Jiqizhixin.crawl parse srv2 lim fuel).1.length ≤ lim) ∧
    ((Jiqizhixin.crawl (fun i : Nat => some i)
        (fun _ => List.range 20) 45 50).1.length = 45 ∧
      (Jiqizhixin.crawl (fun i : Nat => some i)
        (fun _ => List.range 20) 45 50).2.1 = [1, 2, 3] ∧
      (Jiqizhixin.crawl (fun i : Nat => some i)
        (fun _ => List.range 20) 45 50).2.2 = false) := by
  refine ⟨?_, ⟨?_, ?_⟩, ?_, ?_, by decide, by decide, by decide⟩
  · intro srv lim
    have hrec := xzyLoop_records hf srv lim lim 0 none (by omega)
    rw [Xinzhiyuan.crawl, hrec]
    simp only [List.length_map, List.length_take]
    omega
  · have h1 := xzyLoop_curs_len20 hf server 45 hs20 45 0 none (by omega)
      (by omega)
    rw [Xinzhiyuan.crawl, h1]
  · have h1 := xzyLoop_curs_len20 hf server 45 hs20 45 0 none (by omega)
      (by omega)
    have h2 := xzyLoop_records hf server 45 45 0 none (by omega)
    rw [Xinzhiyuan.crawl, h2, List.length_map, List.length_take,
      joinMap_length_const server 20 hs20, h1]
    decide
  · intro srv lim
    rw [Xinzhiyuan.crawl]
    exact xzyLoop_chain hf srv lim lim 0 none (by omega)
  · intro α ρ parse srv2 lim fuel
    have := jqzxLoop_le parse srv2 lim fuel 0 1 (by omega)
    rw [Jiqizhixin.crawl]
    omega

/-- C5 witness: on the concrete 20-per-page server the timeline crawler
issues exactly 3 requests at limit 45. -/
theorem C5_pagination_witness :
    (Xinzhiyuan.crawl (fun _ => none) serverC5 45).2.length = 3 :=
  ((C5_pagination (fun _ => none) serverC5 (fun _ => rfl)).2.1).1

/-! ### Claim C9: abstract fallback chain -/

/-- C9 counterexample: `find_abstract` does not take the first match — a
depth-first first `abstract` field whose value is the empty string is
skipped (`if res:` treats it as a miss) and a later non-empty field is
returned instead. -/
theorem C9_counterexample :
    find_abstract jFixtureC9 = "Real abstract" ∧
    specFirstAbstract jFixtureC9 = some "" ∧
    ("Real abstract" : String) ≠ "" := by
  refine ⟨by decide, by decide, by decide⟩

/-- C9 amended: when no textual abstract container is found, the extractor
searches the JSON blob and uses its result when non-empty, falling back to
the `Abstract`-heading tier, and the empty string results only when all
three tiers produce nothing.  The search is not a plain depth-first
first-match: at each object a string-valued `abstract` key is returned
outright — even when its value is empty, in which case that object's whole
subtree yields nothing — while an object without such a key (and an array)
yields the first non-empty result of searching its values in order, so
empty results bubbling up from children are skipped; any non-empty result
is the value of some `abstract` field of the blob; and exactly when every
string-valued `abstract` field in the blob is non-empty, the result is the
first match of this own-key-first depth-first search. -/
theorem C9_abstract_fallback_amended (jsonParse : String → Option Json)
    (page : Node) :
    (HFPapers.paperDiv page = none →
      ∀ s j, HFPapers.scriptData page = some s → jsonParse s = some j →
        strTrim (find_abstract j) ≠ "" →
        HFPapers.fetch_detail_context jsonParse page =
          strTrim (find_abstract j)) ∧
    (HFPapers.fetch_detail_context jsonParse page = "" →
      HFPapers.tier1 page = "" ∧ HFPapers.tier2 jsonParse page = "" ∧
        HFPapers.tier3 page = "") ∧
    (∀ fs s, objAbstract fs = some s → find_abstract (Json.obj fs) = s) ∧
    (∀ fs, objAbstract fs = none →
      find_abstract (Json.obj fs) =
        firstNE ((jObjVals fs).map find_abstract)) ∧
    (∀ xs, find_abstract (Json.arr xs) =
      firstNE ((jArrElems xs).map find_abstract)) ∧
    (∀ j, find_abstract j ≠ "" → hasAbsJ j (find_abstract j) = true) ∧
    (∀ j, absOkJ j = true → find_abstract j = (ownFirst j).getD "") := by
  refine ⟨?_, ?_, ?_, ?_, ?_, ?_, ?_⟩
  · intro h1 s j hs hj hne
    have ht1 : HFPapers.tier1 page = "" := by
      rw [HFPapers.tier1, h1]
    have ht2 : HFPapers.tier2 jsonParse page = strTrim (find_abstract j) := by
      simp only [HFPapers.tier2, hs, hj]
    simp [HFPapers.fetch_detail_context, ht1, ht2, hne]
  · intro h
    simp only [HFPapers.fetch_detail_context] at h
    by_cases h1 : HFPapers.tier1 page = ""
    · by_cases h2 : HFPapers.tier2 jsonParse page = ""
      · rw [if_neg (by simp [h1]), if_neg (by simp [h2])] at h
        exact ⟨h1, h2, h⟩
      · rw [if_neg (by simp [h1]), if_pos h2] at h
        exact absurd h h2
    · rw [if_pos h1] at h
      exact absurd h h1
  · intro fs s h
    simp [find_abstract, h]
  · intro fs h
    simp [find_abstract, h, findFields_eq_firstNE]
  · intro xs
    simp [find_abstract, findElems_eq_firstNE]
  · intro j h
    exact find_sound j h
  · intro j h
    exact (findJ_own j h).1

/-- C9 witness: on a page with no abstract container and a parseable
`__NEXT_DATA__` blob carrying one non-empty `abstract` field, the context
is that abstract. -/
theorem C9_abstract_fallback_amended_witness :
    HFPapers.fetch_detail_context (fun _ => some jWitnessC9) pageC9 =
      strTrim (find_abstract jWitnessC9) :=
  (C9_abstract_fallback_amended (fun _ => some jWitnessC9) pageC9).1
    (by rfl) "DATA" jWitnessC9 (by rfl) rfl (by decide)

/-! ### Claim C10: one record per timeline item -/

/-- C10: every fetched timeline item (up to the limit) produces exactly one
record — the written records are precisely the parse of the concatenation
of the fetched pages, truncated at `limit`, so none is ever skipped and the
saved count is `min limit` (items returned); when an embedded hub link is
found and its fetch succeeds the record's url is that link, and when the
hub fetch fails or no link exists the fallback record built from the
timeline item's own url and text is emitted. -/
theorem C10_timeline_records (hf : String → Option (String × String))
    (server : Option Nat → List Xinzhiyuan.Status) (limit : Nat) :
    (Xinzhiyuan.crawl hf server limit).1 =
      ((joinMap server (Xinzhiyuan.crawl hf server limit).2).take
        limit).map (Xinzhiyuan.parse_status hf) ∧
    (Xinzhiyuan.crawl hf server limit).1.length =
      min limit
        (joinMap server (Xinzhiyuan.crawl hf server limit).2).length ∧
    (∀ st l t f, Xinzhiyuan.hubLink st = some l → hf l = some (t, f) →
      (Xinzhiyuan.parse_status hf st).url = l) ∧
    (∀ st l, Xinzhiyuan.hubLink st = some l → hf l = none →
      Xinzhiyuan.parse_status hf st = Xinzhiyuan.fallbackRecord st) ∧
    (∀ st, Xinzhiyuan.hubLink st = none →
      Xinzhiyuan.parse_status hf st = Xinzhiyuan.fallbackRecord st) ∧
    (∀ st, (Xinzhiyuan.fallbackRecord st).url = st.url ∧
      (Xinzhiyuan.fallbackRecord st).content = st.textShort) := by
  have h2 := xzyLoop_records hf server limit limit 0 none (by omega)
  refine ⟨?_, ?_, ?_, ?_, ?_, ?_⟩
  · rw [Xinzhiyuan.crawl]
    simpa using h2
  · rw [Xinzhiyuan.crawl, h2, List.length_map, List.length_take]
    simp
  · intro st l t f hl hfl
    simp [Xinzhiyuan.parse_status, hl, hfl]
  · intro st l hl hfl
    simp [Xinzhiyuan.parse_status, hl, hfl]
  · intro st hl
    simp [Xinzhiyuan.parse_status, hl]
  · intro st
    exact ⟨rfl, rfl⟩

/-- C10 witness: a status with an embedded hub anchor whose fetch succeeds
yields a record whose url is the hub link, not the status's own url. -/
theorem C10_timeline_records_witness :
    (Xinzhiyuan.parse_status (fun _ => some ("T", "C")) statusC10).url =
      "https://hub.baai.ac.cn/view/123" :=
  (C10_timeline_records (fun _ => some ("T", "C")) serverC5 0).2.2.1 statusC10
    "https://hub.baai.ac.cn/view/123" "T" "C" (by decide) rfl

/-! ### Claim C6: body normalization -/

/-- C6 counterexample: on a page whose URL carries a path, a root-relative
image source is glued onto the full page URL, not joined with the site base
as the claim states: the extractor emits `https://ex.com/a/b/i.png` where
the claim requires `https://ex.com/i.png`. -/
theorem C6_counterexample :
    AIWeekly.extract_article_segs "https://ex.com/a/b" imgFixtureC6 =
      [Seg.txt "Intro", Seg.img "https://ex.com/a/b/i.png"] ∧
    specAbsolutize "https://ex.com/a/b" "/i.png" = "https://ex.com/i.png" ∧
    ("https://ex.com/a/b/i.png" : String) ≠ "https://ex.com/i.png" := by
  refine ⟨by decide, by decide, by decide⟩

/-- C6 amended: the traversal is depth-first in document order, collecting
trimmed non-empty paragraph text and image sources with `.svg` excluded and
absolute URLs passed through and scheme-relative ones prefixed `https:`,
but every other source — root-relative included — is joined to the page URL
(not the site base); image URLs are de-duplicated within the extraction and
segments keep first-occurrence document order. -/
theorem C6_body_normalization_amended (url : String) (root : Node) :
    AIWeekly.extract_article_segs url root =
      dedupSegs [] ((descendants root).filterMap (AIWeekly.rawSeg url)) ∧
    AIWeekly.extract_article_segs url root <+
      (descendants root).filterMap (AIWeekly.rawSeg url) ∧
    ((AIWeekly.extract_article_segs url root).filterMap imgVal).Pairwise
      (fun a b => a ≠ b) ∧
    (∀ t, Seg.txt t ∈ AIWeekly.extract_article_segs url root → t ≠ "") ∧
    (∀ u, Seg.img u ∈ AIWeekly.extract_article_segs url root →
      ∃ s, strEnds s ".svg" = false ∧ u = AIWeekly.absolutize url s) := by
  have hkey := segLoop_eq_dedup url (descendants root) []
  refine ⟨hkey, ?_, ?_, ?_, ?_⟩
  · rw [AIWeekly.extract_article_segs, hkey]
    exact dedupSegs_sublist _ _
  · rw [AIWeekly.extract_article_segs, hkey]
    exact dedupSegs_imgs_pairwise _ _
  · intro t hmem
    rw [AIWeekly.extract_article_segs, hkey] at hmem
    have hmem2 := (dedupSegs_sublist _ []).mem hmem
    rcases List.mem_filterMap.mp hmem2 with ⟨n, _, hn⟩
    rw [AIWeekly.rawSeg] at hn
    by_cases hp : nodeName n = some "p"
    · rw [if_pos hp] at hn
      by_cases ht : getTextSep " " n = ""
      · rw [if_pos ht] at hn; cases hn
      · rw [if_neg ht] at hn
        intro he
        exact ht (by cases hn; exact he)
    · rw [if_neg hp] at hn
      by_cases hi : nodeName n = some "img"
      · rw [if_pos hi] at hn
        rcases hs : AIWeekly.pickSrc (nodeAttrs n) with _ | s
        · simp [hs] at hn
        · simp only [hs] at hn
          by_cases hsvg : strEnds s ".svg"
          · rw [if_pos hsvg] at hn; cases hn
          · rw [if_neg hsvg] at hn; cases hn
      · rw [if_neg hi] at hn; cases hn
  · intro u hmem
    rw [AIWeekly.extract_article_segs, hkey] at hmem
    have hmem2 := (dedupSegs_sublist _ []).mem hmem
    rcases List.mem_filterMap.mp hmem2 with ⟨n, _, hn⟩
    rw [AIWeekly.rawSeg] at hn
    by_cases hp : nodeName n = some "p"
    · rw [if_pos hp] at hn
      by_cases ht : getTextSep " " n = ""
      · rw [if_pos ht] at hn; cases hn
      · rw [if_neg ht] at hn; cases hn
    · rw [if_neg hp] at hn
      by_cases hi : nodeName n = some "img"
      · rw [if_pos hi] at hn
        rcases hs : AIWeekly.pickSrc (nodeAttrs n) with _ | s
        · simp [hs] at hn
        · simp only [hs] at hn
          by_cases hsvg : strEnds s ".svg"
          · rw [if_pos hsvg] at hn; cases hn
          · rw [if_neg hsvg] at hn
            refine ⟨s, Bool.eq_false_iff.mpr hsvg, ?_⟩
            cases hn; rfl
      · rw [if_neg hi] at hn; cases hn

/-- C6 witness: the amended traversal/dedup decomposition on the concrete
fixture. -/
theorem C6_body_normalization_amended_witness :
    AIWeekly.extract_article_segs "https://ex.com/a/b" imgFixtureC6 =
      dedupSegs [] ((descendants imgFixtureC6).filterMap
        (AIWeekly.rawSeg "https://ex.com/a/b")) :=
  (C6_body_normalization_amended "https://ex.com/a/b" imgFixtureC6).1

/-! ### Claim C7: redirect resolver contract -/

/-- C7: `resolve_redirect` never fails: when the HEAD request raises, the
original URL is returned; when HEAD lands on a different URL that URL is
returned without issuing a GET; only when the HEAD result equals the input
is the streamed GET tried, whose final URL is returned, with the original
URL returned if the GET raises. -/
theorem C7_resolve_redirect_contract (head get : String → Option String)
    (url : String) :
    (head url = none → AIWeekly.resolve_redirect head get url = url) ∧
    (∀ f, head url = some f → f ≠ url →
      AIWeekly.resolve_redirect head get url = f) ∧
    (head url = some url → get url = none →
      AIWeekly.resolve_redirect head get url = url) ∧
    (∀ g, head url = some url → get url = some g →
      AIWeekly.resolve_redirect head get url = g) := by
  refine ⟨?_, ?_, ?_, ?_⟩
  · intro h; simp [AIWeekly.resolve_redirect, h]
  · intro f h hne; simp [AIWeekly.resolve_redirect, h, hne]
  · intro h hg; simp [AIWeekly.resolve_redirect, h, hg]
  · intro g h hg; simp [AIWeekly.resolve_redirect, h, hg]

/-- C7 witness: with a HEAD that raises, the input URL comes back. -/
theorem C7_resolve_redirect_contract_witness :
    AIWeekly.resolve_redirect (fun _ => none) (fun _ => none) "https://cur.at/x" =
      "https://cur.at/x" :=
  (C7_resolve_redirect_contract (fun _ => none) (fun _ => none)
    "https://cur.at/x").1 rfl

/-! ### Claim C8: idempotence of redirect resolution on fixed points -/

/-- C8: if resolving a URL yields the URL itself, resolving a second time
still yields that same URL: `resolve_redirect` is idempotent on its fixed
points. -/
theorem C8_resolve_redirect_idempotent (head get : String → Option String)
    (url : String) (h : AIWeekly.resolve_redirect head get url = url) :
    AIWeekly.resolve_redirect head get
      (AIWeekly.resolve_redirect head get url) = url := by
  rw [h, h]

/-- C8 witness: a URL whose HEAD raises is a fixed point, and resolving it
twice returns it unchanged. -/
theorem C8_resolve_redirect_idempotent_witness :
    AIWeekly.resolve_redirect (fun _ => none) (fun _ => none)
      (AIWeekly.resolve_redirect (fun _ => none) (fun _ => none) "https://a.example/p") =
      "https://a.example/p" :=
  C8_resolve_redirect_idempotent (fun _ => none) (fun _ => none)
    "https://a.example/p" rfl

end CrawlSpec
